import Mathlib

/-!
Shallow embedding of the cafe_POS order intake and sales analytics core
(src/api/routes/orders.ts, categories router, and the client store in
src/src/store/index.ts), with theorems checking the specification claims.

Modelling conventions:
* Currency amounts are rationals (the JavaScript source uses IEEE doubles;
  the specification describes decimal currency arithmetic, which ℚ models
  exactly, and the 0.01 tolerance is the literal from the source).
* Timestamps are natural numbers counting milliseconds since the epoch;
  the calendar-day bucket of a timestamp (toISOString().split at T in the
  source, i.e. the UTC day) is the timestamp divided by 86400000.
* JavaScript objects used as keyed accumulators are association lists that
  update in place and append new keys at the end, matching object key
  insertion order.
* Database tables are lists of rows; a batch select is a filter and a
  primary-key lookup is find?.
-/

namespace CafePos

/-- Payment methods accepted by the POS (validated enum in the source). -/
inductive PaymentMethod where
  | cash
  | debit
  | ewallet
deriving DecidableEq, Repr

/-- Order status values (validated enum in the source, default pending). -/
inductive OrderStatus where
  | pending
  | completed
  | cancelled
deriving DecidableEq, Repr

/-- Catalog row of the menu_items table (the columns read by the order and
analytics routes: id, name, price, category). -/
structure MenuItem where
  id : String
  name : String
  price : ℚ
  category : String
deriving DecidableEq, Repr

/-- Line item of an order: itemId plus quantity, as stored in the orders
table items column. -/
structure OrderItem where
  itemId : String
  quantity : ℕ
deriving DecidableEq, Repr

/-- Row of the orders table (the columns the routes read and write). -/
structure Order where
  id : String
  items : List OrderItem
  total : ℚ
  paymentMethod : PaymentMethod
  status : OrderStatus
  createdAt : ℕ
deriving DecidableEq, Repr

/-- Body of POST /api/orders after structural validation (items non-empty
with quantity at least 1, total at least 0, paymentMethod in the enum). -/
structure OrderRequest where
  items : List OrderItem
  total : ℚ
  paymentMethod : PaymentMethod
deriving DecidableEq, Repr

/-- Outcome of the POST /api/orders handler body.  totalMismatch carries
the two values interpolated into the error message (Expected: the computed
total, Received: the client total). -/
inductive CreateOrderResult where
  | invalidItems
  | totalMismatch (expected received : ℚ)
  | created (order : Order)
deriving DecidableEq, Repr

/-- Batch existence lookup in the order handler: select id, name, price
from menu_items where id in itemIds.  Returns every catalog row whose id
occurs in the requested list. -/
def batchLookup (catalog : List MenuItem) (itemIds : List String) : List MenuItem :=
  catalog.filter (fun m => itemIds.contains m.id)

/-- Recomputation loop of the order handler: for each line item, find the
menu item among the looked-up rows and add price times quantity; a line
item whose id is not found contributes nothing. -/
def calculatedTotal (existingItems : List MenuItem) (items : List OrderItem) : ℚ :=
  items.foldl
    (fun acc oi =>
      match existingItems.find? (fun m => m.id == oi.itemId) with
      | some m => acc + m.price * (oi.quantity : ℚ)
      | none => acc)
    0

/-- POST /api/orders handler body (src/api/routes/orders.ts, order
creation): existence check, authoritative recomputation, 0.01-tolerance
reconciliation, then insert with the recomputed total, default status
pending.  newId and now stand for the id and created_at the database
assigns to the inserted row. -/
def createOrder (catalog : List MenuItem) (req : OrderRequest)
    (newId : String) (now : ℕ) : CreateOrderResult :=
  let itemIds := req.items.map (fun i => i.itemId)
  let existingItems := batchLookup catalog itemIds
  if existingItems.length ≠ itemIds.length then
    .invalidItems
  else
    let calcTotal := calculatedTotal existingItems req.items
    if |calcTotal - req.total| > 1 / 100 then
      .totalMismatch calcTotal req.total
    else
      .created
        { id := newId
          items := req.items
          total := calcTotal
          paymentMethod := req.paymentMethod
          status := .pending
          createdAt := now }

/-- Effect of the POST /api/orders handler on the orders table: the row is
appended exactly when the handler reaches the insert. -/
def postOrder (catalog : List MenuItem) (store : List Order) (req : OrderRequest)
    (newId : String) (now : ℕ) : List Order × CreateOrderResult :=
  match createOrder catalog req newId now with
  | .created o => (store ++ [o], .created o)
  | r => (store, r)

/-- Current catalog price of an item id: price of the first catalog row
with that id (ids are unique in the database, the primary key). -/
def priceOf (catalog : List MenuItem) (x : String) : ℚ :=
  match catalog.find? (fun m => m.id == x) with
  | some m => m.price
  | none => 0

/-- Catalog-derived sum of a cart: quantity times current catalog price,
summed over all line items. -/
def specTotal (catalog : List MenuItem) (items : List OrderItem) : ℚ :=
  (items.map (fun oi => priceOf catalog oi.itemId * (oi.quantity : ℚ))).sum

/-! Definitions for the daily sales analytics aggregator
(GET /api/orders/analytics/daily) and the remaining routes. -/

/-- Milliseconds per calendar day. -/
def msPerDay : ℕ := 86400000

/-- Calendar-day bucket of a creation timestamp: the source takes the date
part of toISOString, i.e. the UTC day index. -/
def epochDay (t : ℕ) : ℕ := t / msPerDay

/-- setHours(0,0,0,0) applied to the start date. -/
def startOfDay (t : ℕ) : ℕ := t - t % msPerDay

/-- setHours(23,59,59,999) applied to the end date. -/
def endOfDay (t : ℕ) : ℕ := startOfDay t + (msPerDay - 1)

/-- Order fetch of the analytics route: all orders whose created_at lies
in the inclusive range.  The route also asks the database for the rows in
created_at order; the table itself is unordered, so the list here is an
arbitrary linearization, and no value in the final payload depends on the
traversal order apart from tie-breaking inside the two sorts below. -/
def fetchOrders (store : List Order) (s e : ℕ) : List Order :=
  store.filter (fun o => decide (s ≤ o.createdAt ∧ o.createdAt ≤ e))

/-- Menu item map of the analytics route (new Map over the catalog, keyed
by id; ids are unique in the database, the primary key). -/
def menuLookup (catalog : List MenuItem) (x : String) : Option MenuItem :=
  catalog.find? (fun m => m.id == x)

/-- Association list modelling a JavaScript object used as a keyed
accumulator: an existing key is updated in place, a new key is appended at
the end.  The stored value for a fresh key is f applied to the initial
value v0, matching the source pattern of initialising a key and then
applying increment updates to it. -/
def upsert {κ β : Type} [DecidableEq κ] :
    List (κ × β) → κ → (β → β) → β → List (κ × β)
  | [], k, f, v0 => [(k, f v0)]
  | (k1, v) :: rest, k, f, v0 =>
    if k1 = k then (k1, f v) :: rest else (k1, v) :: upsert rest k f v0

/-- Lookup in such an accumulator. -/
def alookup {κ β : Type} [DecidableEq κ] : List (κ × β) → κ → Option β
  | [], _ => none
  | (k1, v) :: rest, k => if k1 = k then some v else alookup rest k

/-- Value of an additive field of an accumulator entry at a key, zero when
the key is absent (statement helper for the aggregation lemmas). -/
def measureAt {κ β M : Type} [DecidableEq κ] [AddCommMonoid M]
    (mu : β → M) (m : List (κ × β)) (k : κ) : M :=
  ((alookup m k).map mu).getD 0

/-- Per-item rollup record (name, quantity, revenue, category), used both
per day and globally. -/
structure ItemStat where
  name : String
  quantity : ℕ
  revenue : ℚ
  category : String
deriving DecidableEq, Repr

/-- Per-day accumulator: transactions, revenue, per-day item breakdown,
payment method counters. -/
structure DayStat where
  transactions : ℕ
  revenue : ℚ
  items : List (String × ItemStat)
  cash : ℕ
  debit : ℕ
  ewallet : ℕ
deriving DecidableEq, Repr

/-- Fresh per-day accumulator. -/
def dayInit : DayStat := ⟨0, 0, [], 0, 0, 0⟩

/-- Payment counter update of the day accumulator. -/
def bumpPM (pm : PaymentMethod) (d : DayStat) : DayStat :=
  match pm with
  | .cash => { d with cash := d.cash + 1 }
  | .debit => { d with debit := d.debit + 1 }
  | .ewallet => { d with ewallet := d.ewallet + 1 }

/-- Daily scalar updates for one order: transactions plus one, revenue
plus order total, payment counter plus one. -/
def dayUpdate (o : Order) (d : DayStat) : DayStat :=
  bumpPM o.paymentMethod
    { d with transactions := d.transactions + 1, revenue := d.revenue + o.total }

/-- Item rollup update: quantity plus the line quantity, revenue plus the
line revenue (menu price times quantity). -/
def itemUpdate (q : ℕ) (r : ℚ) (s : ItemStat) : ItemStat :=
  { s with quantity := s.quantity + q, revenue := s.revenue + r }

/-- Whole accumulator state of the aggregation loop. -/
structure AnalyticsState where
  dailySales : List (ℕ × DayStat)
  totalRevenue : ℚ
  totalTransactions : ℕ
  itemSales : List (String × ItemStat)
deriving DecidableEq, Repr

/-- Handling of one line item inside the order loop: resolve against the
menu item map; on failure skip silently, otherwise update the per-day item
breakdown and the global item rollup. -/
def processItem (catalog : List MenuItem) (day : ℕ)
    (st : AnalyticsState) (oi : OrderItem) : AnalyticsState :=
  match menuLookup catalog oi.itemId with
  | none => st
  | some mi =>
    let r := mi.price * (oi.quantity : ℚ)
    { st with
      dailySales := upsert st.dailySales day
        (fun d => { d with
          items := upsert d.items oi.itemId (itemUpdate oi.quantity r)
            ⟨mi.name, 0, 0, mi.category⟩ }) dayInit
      itemSales := upsert st.itemSales oi.itemId (itemUpdate oi.quantity r)
        ⟨mi.name, 0, 0, mi.category⟩ }

/-- Body of the per-order loop of the analytics route: bucket the order by
its creation day, update the daily scalars and the overall totals, then
process its line items. -/
def processOrder (catalog : List MenuItem) (st : AnalyticsState) (o : Order) :
    AnalyticsState :=
  let day := epochDay o.createdAt
  let st1 : AnalyticsState :=
    { st with
      dailySales := upsert st.dailySales day (dayUpdate o) dayInit
      totalRevenue := st.totalRevenue + o.total
      totalTransactions := st.totalTransactions + 1 }
  o.items.foldl (processItem catalog day) st1

/-- Quantity contributed by one line item to the rollup entry of key k
(statement helper): zero when the item does not resolve or has another id. -/
def itemContribQty (catalog : List MenuItem) (k : String) (oi : OrderItem) : ℕ :=
  match menuLookup catalog oi.itemId with
  | some _ => if oi.itemId = k then oi.quantity else 0
  | none => 0

/-- Revenue contributed by one line item to the rollup entry of key k
(statement helper): menu price times quantity when the item resolves and
matches, zero otherwise. -/
def itemContribRev (catalog : List MenuItem) (k : String) (oi : OrderItem) : ℚ :=
  match menuLookup catalog oi.itemId with
  | some mi => if oi.itemId = k then mi.price * (oi.quantity : ℚ) else 0
  | none => 0

/-- Result payload of the analytics route. -/
structure AnalyticsResult where
  totalRevenue : ℚ
  totalTransactions : ℕ
  averageOrderValue : ℚ
  dailySales : List (ℕ × DayStat)
  topItems : List (String × ItemStat)
  totalDays : ℕ
deriving DecidableEq, Repr

/-- dailySales converted to an array sorted descending by date. -/
def dailySalesArray (ds : List (ℕ × DayStat)) : List (ℕ × DayStat) :=
  ds.mergeSort (fun a b => decide (b.1 ≤ a.1))

/-- topItems: the global item rollup sorted descending by quantity, then
cut to the first 10 entries. -/
def topItemsOf (m : List (String × ItemStat)) : List (String × ItemStat) :=
  (m.mergeSort (fun a b => decide (b.2.quantity ≤ a.2.quantity))).take 10

/-- GET /api/orders/analytics/daily: clamp the range to day bounds, fetch
the in-range orders and the full catalog, run the accumulation loop, then
assemble summary, dailySales (descending by date), topItems (top 10 by
quantity) and totalDays. -/
def analyticsDaily (catalog : List MenuItem) (store : List Order)
    (startDate endDate : ℕ) : AnalyticsResult :=
  let s := startOfDay startDate
  let e := endOfDay endDate
  let orders := fetchOrders store s e
  let fin := orders.foldl (processOrder catalog) ⟨[], 0, 0, []⟩
  { totalRevenue := fin.totalRevenue
    totalTransactions := fin.totalTransactions
    averageOrderValue :=
      if 0 < fin.totalTransactions then
        fin.totalRevenue / (fin.totalTransactions : ℚ)
      else 0
    dailySales := dailySalesArray fin.dailySales
    topItems := topItemsOf fin.itemSales
    totalDays := (dailySalesArray fin.dailySales).length }

/-- Removal of every line item with a given id (used to state that an
unresolvable line item contributes nothing to the analytics). -/
def dropItem (x : String) (o : Order) : Order :=
  { o with items := o.items.filter (fun oi => !(oi.itemId == x)) }

/-- PUT /api/orders/:id/status: set the status of the matching row to the
requested value; when no row matches, report not-found (PGRST116) and
leave the table unchanged.  The boolean is true when a row was updated. -/
def updateOrderStatus (store : List Order) (oid : String) (st : OrderStatus) :
    List Order × Bool :=
  if store.any (fun o => o.id == oid) then
    (store.map (fun o => if o.id = oid then { o with status := st } else o), true)
  else
    (store, false)

/-- Row of the categories table (the columns the delete route reads). -/
structure Category where
  id : String
  name : String
deriving DecidableEq, Repr

/-- Outcome of DELETE /api/categories/:id. -/
inductive DeleteCategoryResult where
  | notFound
  | inUse
  | deleted
deriving DecidableEq, Repr

/-- DELETE /api/categories/:id handler: 404 when the id does not exist,
CATEGORY_IN_USE when some menu item uses the category name (the source
selects with limit 1 and tests the length), otherwise delete the row.
The handler has no special case for the reserved category named all. -/
def deleteCategory (cats : List Category) (menu : List MenuItem)
    (cid : String) : List Category × DeleteCategoryResult :=
  match cats.find? (fun c => c.id == cid) with
  | none => (cats, .notFound)
  | some c =>
    if ((menu.filter (fun m => m.category == c.name)).take 1).length > 0 then
      (cats, .inUse)
    else
      (cats.filter (fun c2 => !(c2.id == cid)), .deleted)

/-- removeCategory of the client store (src/src/store/index.ts) composed
with the API delete: the client refuses the literal category id all and
sends no request (modelled as none); otherwise the server handler runs. -/
def removeCategory (cats : List Category) (menu : List MenuItem)
    (cid : String) : List Category × Option DeleteCategoryResult :=
  if cid = "all" then (cats, none)
  else ((deleteCategory cats menu cid).1, some (deleteCategory cats menu cid).2)

/-! Helper lemmas about the existence lookup and the recomputation loop. -/

lemma contains_mem (l : List String) (x : String) : l.contains x = true ↔ x ∈ l :=
  List.elem_iff

lemma find?_batchLookup (catalog : List MenuItem) (itemIds : List String)
    (x : String) (hx : x ∈ itemIds) :
    (batchLookup catalog itemIds).find? (fun m => m.id == x) =
      catalog.find? (fun m => m.id == x) := by
  unfold batchLookup
  rw [List.find?_filter]
  congr 1
  funext m
  by_cases h : m.id = x
  · subst h
    simp [contains_mem, hx]
  · simp [h]

lemma calculatedTotal_congr (existing catalog : List MenuItem)
    (items : List OrderItem)
    (h : ∀ oi ∈ items, existing.find? (fun m => m.id == oi.itemId) =
      catalog.find? (fun m => m.id == oi.itemId)) :
    calculatedTotal existing items = specTotal catalog items := by
  unfold calculatedTotal specTotal
  suffices haux : ∀ (l : List OrderItem) (c : ℚ),
      (∀ oi ∈ l, existing.find? (fun m => m.id == oi.itemId) =
        catalog.find? (fun m => m.id == oi.itemId)) →
      (l.foldl
        (fun acc oi =>
          match existing.find? (fun m => m.id == oi.itemId) with
          | some m => acc + m.price * (oi.quantity : ℚ)
          | none => acc) c) =
      c + (l.map (fun oi => priceOf catalog oi.itemId * (oi.quantity : ℚ))).sum by
    simpa using haux items 0 h
  intro l
  induction l with
  | nil => intro c _; simp
  | cons oi rest ih =>
    intro c hl
    have hoi := hl oi (List.mem_cons_self oi rest)
    have hrest : ∀ x ∈ rest, existing.find? (fun m => m.id == x.itemId) =
        catalog.find? (fun m => m.id == x.itemId) :=
      fun x hx => hl x (List.mem_cons_of_mem _ hx)
    simp only [List.foldl_cons, List.map_cons, List.sum_cons]
    rw [ih _ hrest]
    unfold priceOf
    rw [hoi]
    cases hfind : catalog.find? (fun m => m.id == oi.itemId) with
    | none => simp [add_comm]
    | some m => simp [add_assoc]

lemma calculatedTotal_batchLookup (catalog : List MenuItem)
    (items : List OrderItem) :
    calculatedTotal (batchLookup catalog (items.map (fun i => i.itemId))) items =
      specTotal catalog items := by
  apply calculatedTotal_congr
  intro oi hoi
  exact find?_batchLookup _ _ _ (List.mem_map_of_mem _ hoi)

lemma map_id_batchLookup (catalog : List MenuItem) (ids : List String) :
    (batchLookup catalog ids).map MenuItem.id =
      (catalog.map MenuItem.id).filter (fun x => ids.contains x) := by
  unfold batchLookup
  rw [List.filter_map]
  rfl

lemma batchLookup_length (catalog : List MenuItem) (ids : List String)
    (hcat : (catalog.map MenuItem.id).Nodup) (hids : ids.Nodup) :
    (batchLookup catalog ids).length =
      (ids.filter (fun x => decide (∃ m ∈ catalog, m.id = x))).length := by
  classical
  have h1 : (batchLookup catalog ids).length =
      ((catalog.map MenuItem.id).filter (fun x => ids.contains x)).length := by
    rw [← map_id_batchLookup, List.length_map]
  rw [h1]
  set A : List String := catalog.map MenuItem.id with hA
  have h2 : (ids.filter (fun x => decide (∃ m ∈ catalog, m.id = x))) =
      ids.filter (fun x => A.contains x) := by
    apply List.filter_congr
    intro x _
    simp [hA, contains_mem, List.mem_map, eq_comm]
  rw [h2]
  have hAf : (A.filter (fun x => ids.contains x)).toFinset.card =
      (A.filter (fun x => ids.contains x)).length :=
    List.toFinset_card_of_nodup (hcat.filter _)
  have hBf : (ids.filter (fun x => A.contains x)).toFinset.card =
      (ids.filter (fun x => A.contains x)).length :=
    List.toFinset_card_of_nodup (hids.filter _)
  rw [← hAf, ← hBf]
  congr 1
  rw [List.toFinset_filter, List.toFinset_filter]
  have hinterA : Finset.filter (fun x => (ids.contains x) = true) A.toFinset =
      A.toFinset ∩ ids.toFinset := by
    rw [← Finset.filter_mem_eq_inter]
    apply Finset.filter_congr
    intro x _
    simp [contains_mem]
  have hinterB : Finset.filter (fun x => (A.contains x) = true) ids.toFinset =
      ids.toFinset ∩ A.toFinset := by
    rw [← Finset.filter_mem_eq_inter]
    apply Finset.filter_congr
    intro x _
    simp [contains_mem]
  rw [hinterA, hinterB, Finset.inter_comm]

lemma batchLookup_length_eq (catalog : List MenuItem) (ids : List String)
    (hcat : (catalog.map MenuItem.id).Nodup) (hids : ids.Nodup)
    (hex : ∀ x ∈ ids, ∃ m ∈ catalog, m.id = x) :
    (batchLookup catalog ids).length = ids.length := by
  rw [batchLookup_length catalog ids hcat hids]
  congr 1
  apply List.filter_eq_self.mpr
  intro x hx
  simpa using hex x hx

/-! Theorems for the order intake claims. -/

/-- C1: for an order-creation request whose line items all reference
existing catalog items and whose client total is within 0.01 of the
catalog-derived sum, the total persisted with the created order equals the
sum over all line items of quantity times the current catalog price,
regardless of the client-supplied total. -/
theorem createOrder_persists_catalog_total (catalog : List MenuItem)
    (req : OrderRequest) (newId : String) (now : ℕ) (o : Order)
    (hex : ∀ oi ∈ req.items, ∃ m ∈ catalog, m.id = oi.itemId)
    (htol : |specTotal catalog req.items - req.total| ≤ 1 / 100)
    (hok : createOrder catalog req newId now = .created o) :
    o.total = specTotal catalog req.items := by
  simp only [createOrder] at hok
  split at hok
  · cases hok
  · split at hok
    · cases hok
    · cases hok
      exact calculatedTotal_batchLookup catalog req.items

/-- C1 witness: a one-item catalog at price 45, a cart of two units with
client total 90; the persisted total is the catalog-derived 90. -/
theorem createOrder_persists_catalog_total_witness :
    (⟨"o1", [⟨"a1", 2⟩], 90, .cash, .pending, 0⟩ : Order).total =
      specTotal [⟨"a1", "Latte", 45, "coffee"⟩] [⟨"a1", 2⟩] := by
  apply createOrder_persists_catalog_total
    [⟨"a1", "Latte", 45, "coffee"⟩] ⟨[⟨"a1", 2⟩], 90, .cash⟩ "o1" 0
  · intro oi hoi
    refine ⟨⟨"a1", "Latte", 45, "coffee"⟩, by simp, ?_⟩
    have : oi = (⟨"a1", 2⟩ : OrderItem) := by simpa using hoi
    simp [this]
  · norm_num [specTotal, priceOf, List.find?]
  · show createOrder _ _ _ _ = _
    unfold createOrder batchLookup calculatedTotal
    norm_num [List.filter, List.find?]

/-- C2: when the client total differs from the catalog-derived sum by
strictly more than 0.01 (for a cart of distinct, existing item ids, so the
existence check that runs first passes), the handler returns the
TOTAL_MISMATCH error carrying the expected (computed) and received
(client) values, and the order store is unchanged. -/
theorem totalMismatch_rejects (catalog : List MenuItem) (store : List Order)
    (req : OrderRequest) (newId : String) (now : ℕ)
    (hcat : (catalog.map MenuItem.id).Nodup)
    (hids : (req.items.map (fun i => i.itemId)).Nodup)
    (hex : ∀ oi ∈ req.items, ∃ m ∈ catalog, m.id = oi.itemId)
    (hmis : |specTotal catalog req.items - req.total| > 1 / 100) :
    postOrder catalog store req newId now =
      (store, .totalMismatch (specTotal catalog req.items) req.total) := by
  have hlen : (batchLookup catalog (req.items.map (fun i => i.itemId))).length =
      (req.items.map (fun i => i.itemId)).length := by
    apply batchLookup_length_eq _ _ hcat hids
    intro x hx
    obtain ⟨oi, hoi, rfl⟩ := List.mem_map.mp hx
    exact hex oi hoi
  have hco : createOrder catalog req newId now =
      .totalMismatch (specTotal catalog req.items) req.total := by
    simp only [createOrder]
    rw [if_neg (fun h => h hlen), calculatedTotal_batchLookup, if_pos hmis]
  unfold postOrder
  rw [hco]

/-- C2 witness: catalog price 45, cart of two units, client total 80; the
handler rejects with TOTAL_MISMATCH reporting expected 90 and received 80,
leaving the store empty. -/
theorem totalMismatch_rejects_witness :
    postOrder [⟨"a1", "Latte", 45, "coffee"⟩] []
        ⟨[⟨"a1", 2⟩], 80, .cash⟩ "o1" 0 =
      ([], .totalMismatch (specTotal [⟨"a1", "Latte", 45, "coffee"⟩] [⟨"a1", 2⟩]) 80) := by
  apply totalMismatch_rejects
  · decide
  · decide
  · intro oi hoi
    refine ⟨⟨"a1", "Latte", 45, "coffee"⟩, by simp, ?_⟩
    have : oi = (⟨"a1", 2⟩ : OrderItem) := by simpa using hoi
    simp [this]
  · norm_num [specTotal, priceOf, List.find?]

lemma postOrder_eq_invalidItems_iff (catalog : List MenuItem)
    (store : List Order) (req : OrderRequest) (newId : String) (now : ℕ) :
    postOrder catalog store req newId now = (store, .invalidItems) ↔
      createOrder catalog req newId now = .invalidItems := by
  unfold postOrder
  cases h : createOrder catalog req newId now <;> simp

lemma createOrder_eq_invalidItems_iff (catalog : List MenuItem)
    (req : OrderRequest) (newId : String) (now : ℕ) :
    createOrder catalog req newId now = .invalidItems ↔
      (batchLookup catalog (req.items.map (fun i => i.itemId))).length ≠
        (req.items.map (fun i => i.itemId)).length := by
  simp only [createOrder]
  split
  next h => exact iff_of_true rfl h
  next h =>
    refine iff_of_false ?_ (fun hc => h hc)
    split <;> simp

/-- C3 counterexample: a cart listing the same existing item id in two
line items (every referenced item exists in the catalog) is rejected with
INVALID_ITEMS, because the handler compares the batch-lookup row count
with the total line-item count, not the distinct-id count. -/
theorem invalidItems_duplicate_counterexample :
    (∀ oi ∈ ([⟨"a1", 1⟩, ⟨"a1", 1⟩] : List OrderItem),
      ∃ m ∈ ([⟨"a1", "Latte", 3, "coffee"⟩] : List MenuItem), m.id = oi.itemId) ∧
    postOrder [⟨"a1", "Latte", 3, "coffee"⟩] []
        ⟨[⟨"a1", 1⟩, ⟨"a1", 1⟩], 6, .cash⟩ "o1" 0 = ([], .invalidItems) := by
  constructor
  · decide
  · rfl

/-- C3 amended: the existence check compares the batch-lookup row count
against the total number of line items, so for a cart with distinct item
ids the handler fails with INVALID_ITEMS (store unchanged) exactly when
some referenced id does not exist in the catalog; a cart that repeats an
existing id in more than one line item, however, is also rejected. -/
theorem invalidItems_iff_missing (catalog : List MenuItem) (store : List Order)
    (req : OrderRequest) (newId : String) (now : ℕ)
    (hcat : (catalog.map MenuItem.id).Nodup)
    (hids : (req.items.map (fun i => i.itemId)).Nodup) :
    postOrder catalog store req newId now = (store, .invalidItems) ↔
      ∃ oi ∈ req.items, ∀ m ∈ catalog, m.id ≠ oi.itemId := by
  rw [postOrder_eq_invalidItems_iff, createOrder_eq_invalidItems_iff]
  rw [batchLookup_length catalog _ hcat hids]
  constructor
  · intro hne
    rcases List.length_filter_lt_length_iff_exists.mp
        (lt_of_le_of_ne (List.length_filter_le _ _) hne) with ⟨x, hx, hpx⟩
    obtain ⟨oi, hoi, rfl⟩ := List.mem_map.mp hx
    refine ⟨oi, hoi, ?_⟩
    intro m hm hmx
    exact hpx (by simp [decide_eq_true_eq]; exact ⟨m, hm, hmx⟩)
  · intro ⟨oi, hoi, hmiss⟩
    apply ne_of_lt
    apply List.length_filter_lt_length_iff_exists.mpr
    refine ⟨oi.itemId, List.mem_map_of_mem _ hoi, ?_⟩
    simp only [decide_eq_true_eq, not_exists]
    push_neg
    intro m hm
    exact hmiss m hm

/-- C3 amended witness: a cart whose single line item references an id
absent from the catalog is rejected with INVALID_ITEMS and no order is
stored. -/
theorem invalidItems_iff_missing_witness :
    postOrder [⟨"a1", "Latte", 45, "coffee"⟩] []
        ⟨[⟨"ghost", 1⟩], 5, .cash⟩ "o1" 0 = ([], .invalidItems) :=
  (invalidItems_iff_missing [⟨"a1", "Latte", 45, "coffee"⟩] []
      ⟨[⟨"ghost", 1⟩], 5, .cash⟩ "o1" 0 (by decide) (by decide)).mpr
    (by decide)

/-! Lemmas about the keyed accumulators. -/

section Accum

variable {κ β : Type} [DecidableEq κ]

lemma alookup_upsert_self (m : List (κ × β)) (k : κ) (f : β → β) (v0 : β) :
    alookup (upsert m k f v0) k = some (f ((alookup m k).getD v0)) := by
  induction m with
  | nil => simp [upsert, alookup]
  | cons p rest ih =>
    obtain ⟨k1, v⟩ := p
    by_cases h : k1 = k
    · subst h
      simp [upsert, alookup]
    · simp [upsert, alookup, h, ih]

lemma alookup_upsert_ne (m : List (κ × β)) (k k2 : κ) (f : β → β) (v0 : β)
    (h : k2 ≠ k) : alookup (upsert m k f v0) k2 = alookup m k2 := by
  induction m with
  | nil => simp [upsert, alookup, Ne.symm h]
  | cons p rest ih =>
    obtain ⟨k1, v⟩ := p
    by_cases h1 : k1 = k
    · subst h1
      simp [upsert, alookup, Ne.symm h]
    · by_cases h2 : k1 = k2
      · subst h2
        simp [upsert, alookup, h1]
      · simp [upsert, alookup, h1, h2, ih]

lemma upsert_cons_eq (k : κ) (v : β) (rest : List (κ × β)) (f : β → β)
    (v0 : β) : upsert ((k, v) :: rest) k f v0 = (k, f v) :: rest := by
  simp [upsert]

lemma upsert_cons_ne (k1 k : κ) (v : β) (rest : List (κ × β)) (f : β → β)
    (v0 : β) (h : k1 ≠ k) :
    upsert ((k1, v) :: rest) k f v0 = (k1, v) :: upsert rest k f v0 := by
  simp [upsert, h]

lemma mem_keys_upsert (m : List (κ × β)) (k a : κ) (f : β → β) (v0 : β) :
    a ∈ (upsert m k f v0).map Prod.fst ↔ a = k ∨ a ∈ m.map Prod.fst := by
  induction m with
  | nil => simp [upsert]
  | cons p rest ih =>
    obtain ⟨k1, v⟩ := p
    by_cases h : k1 = k
    · subst h
      rw [upsert_cons_eq]
      simp only [List.map_cons, List.mem_cons]
      tauto
    · rw [upsert_cons_ne _ _ _ _ _ _ h]
      simp only [List.map_cons, List.mem_cons, ih]
      tauto

lemma keys_upsert_mem (m : List (κ × β)) (k : κ) (f : β → β) (v0 : β)
    (h : k ∈ m.map Prod.fst) :
    (upsert m k f v0).map Prod.fst = m.map Prod.fst := by
  induction m with
  | nil => simp at h
  | cons p rest ih =>
    obtain ⟨k1, v⟩ := p
    by_cases h1 : k1 = k
    · subst h1
      rw [upsert_cons_eq]
      simp
    · have h2 : k ∈ rest.map Prod.fst := by
        rcases List.mem_cons.mp h with h3 | h3
        · exact absurd h3.symm h1
        · exact h3
      rw [upsert_cons_ne _ _ _ _ _ _ h1]
      simp [ih h2]

lemma nodup_keys_upsert (m : List (κ × β)) (k : κ) (f : β → β) (v0 : β)
    (h : (m.map Prod.fst).Nodup) : ((upsert m k f v0).map Prod.fst).Nodup := by
  induction m with
  | nil => simp [upsert]
  | cons p rest ih =>
    obtain ⟨k1, v⟩ := p
    simp only [List.map_cons, List.nodup_cons] at h
    by_cases hk : k1 = k
    · subst hk
      rw [upsert_cons_eq]
      simp only [List.map_cons, List.nodup_cons]
      exact ⟨h.1, h.2⟩
    · rw [upsert_cons_ne _ _ _ _ _ _ hk]
      simp only [List.map_cons, List.nodup_cons]
      refine ⟨?_, ih h.2⟩
      intro hmem
      rcases (mem_keys_upsert rest k k1 f v0).mp hmem with h1 | h1
      · exact hk h1
      · exact h.1 h1

lemma alookup_eq_of_mem (m : List (κ × β)) (p : κ × β)
    (hnd : (m.map Prod.fst).Nodup) (hp : p ∈ m) : alookup m p.1 = some p.2 := by
  induction m with
  | nil => cases hp
  | cons q rest ih =>
    simp only [List.map_cons, List.nodup_cons] at hnd
    rcases List.mem_cons.mp hp with rfl | hp2
    · simp [alookup]
    · obtain ⟨k1, v⟩ := q
      have hne : k1 ≠ p.1 := by
        intro e
        have hmm : p.1 ∈ rest.map Prod.fst := List.mem_map_of_mem Prod.fst hp2
        rw [← e] at hmm
        exact hnd.1 hmm
      simp [alookup, hne, ih hnd.2 hp2]

variable {M : Type} [AddCommMonoid M]

lemma measureAt_upsert (mu : β → M) (m : List (κ × β)) (k d : κ) (f : β → β)
    (v0 : β) (c : M) (hf : ∀ v, mu (f v) = mu v + c) (h0 : mu v0 = 0) :
    measureAt mu (upsert m k f v0) d =
      measureAt mu m d + if k = d then c else 0 := by
  by_cases hkd : k = d
  · subst hkd
    rw [measureAt, alookup_upsert_self]
    cases hm : alookup m k with
    | none => simp [measureAt, hm, hf, h0]
    | some v => simp [measureAt, hm, hf]
  · rw [measureAt, alookup_upsert_ne _ _ _ _ _ (fun e => hkd e.symm)]
    simp [measureAt, hkd]

lemma foldl_measure_add {σ γ : Type} (step : σ → γ → σ) (meas : σ → M)
    (w : γ → M) (h : ∀ s c, meas (step s c) = meas s + w c) :
    ∀ (l : List γ) (s : σ), meas (l.foldl step s) = meas s + (l.map w).sum := by
  intro l
  induction l with
  | nil => intro s; simp
  | cons c rest ih =>
    intro s
    simp only [List.foldl_cons, List.map_cons, List.sum_cons]
    rw [ih, h, add_assoc]

lemma sum_map_ite {γ : Type} (l : List γ) (p : γ → Prop) [DecidablePred p]
    (g : γ → M) :
    (l.map (fun x => if p x then g x else 0)).sum =
      ((l.filter (fun x => decide (p x))).map g).sum := by
  induction l with
  | nil => simp
  | cons x rest ih =>
    by_cases hx : p x
    · simp [hx, ih, List.filter_cons]
    · simp [hx, ih, List.filter_cons]

lemma sum_map_one {γ : Type} (l : List γ) :
    (l.map (fun _ => (1 : ℕ))).sum = l.length := by
  induction l with
  | nil => simp
  | cons x rest ih => simp [ih, Nat.add_comm]

lemma sum_map_ite_one {γ : Type} (l : List γ) (p : γ → Prop)
    [DecidablePred p] :
    (l.map (fun x => if p x then (1 : ℕ) else 0)).sum =
      (l.filter (fun x => decide (p x))).length := by
  rw [sum_map_ite l p (fun _ => (1 : ℕ)), sum_map_one]

end Accum

/-! Step lemmas for the analytics accumulation loop. -/

lemma processItem_totalRevenue (catalog : List MenuItem) (day : ℕ)
    (st : AnalyticsState) (oi : OrderItem) :
    (processItem catalog day st oi).totalRevenue = st.totalRevenue := by
  unfold processItem
  cases menuLookup catalog oi.itemId <;> rfl

lemma processItem_totalTransactions (catalog : List MenuItem) (day : ℕ)
    (st : AnalyticsState) (oi : OrderItem) :
    (processItem catalog day st oi).totalTransactions = st.totalTransactions := by
  unfold processItem
  cases menuLookup catalog oi.itemId <;> rfl

lemma foldl_processItem_totalRevenue (catalog : List MenuItem) (day : ℕ)
    (items : List OrderItem) (st : AnalyticsState) :
    (items.foldl (processItem catalog day) st).totalRevenue = st.totalRevenue := by
  have h := foldl_measure_add (processItem catalog day)
    (fun s => s.totalRevenue) (fun _ => (0 : ℚ))
    (fun s c => by simp [processItem_totalRevenue]) items st
  simpa using h

lemma foldl_processItem_totalTransactions (catalog : List MenuItem) (day : ℕ)
    (items : List OrderItem) (st : AnalyticsState) :
    (items.foldl (processItem catalog day) st).totalTransactions =
      st.totalTransactions := by
  have h := foldl_measure_add (processItem catalog day)
    (fun s => s.totalTransactions) (fun _ => (0 : ℕ))
    (fun s c => by simp [processItem_totalTransactions]) items st
  simpa using h

lemma processOrder_totalRevenue (catalog : List MenuItem)
    (st : AnalyticsState) (o : Order) :
    (processOrder catalog st o).totalRevenue = st.totalRevenue + o.total := by
  unfold processOrder
  rw [foldl_processItem_totalRevenue]

lemma processOrder_totalTransactions (catalog : List MenuItem)
    (st : AnalyticsState) (o : Order) :
    (processOrder catalog st o).totalTransactions = st.totalTransactions + 1 := by
  unfold processOrder
  rw [foldl_processItem_totalTransactions]

lemma finState_totalRevenue (catalog : List MenuItem) (orders : List Order) :
    (orders.foldl (processOrder catalog)
      (⟨[], 0, 0, []⟩ : AnalyticsState)).totalRevenue =
      (orders.map Order.total).sum := by
  have h := foldl_measure_add (processOrder catalog)
    (fun s => s.totalRevenue) Order.total
    (fun s o => processOrder_totalRevenue catalog s o) orders ⟨[], 0, 0, []⟩
  simpa using h

lemma finState_totalTransactions (catalog : List MenuItem) (orders : List Order) :
    (orders.foldl (processOrder catalog)
      (⟨[], 0, 0, []⟩ : AnalyticsState)).totalTransactions = orders.length := by
  have h := foldl_measure_add (processOrder catalog)
    (fun s => s.totalTransactions) (fun _ => (1 : ℕ))
    (fun s o => processOrder_totalTransactions catalog s o) orders ⟨[], 0, 0, []⟩
  simpa [sum_map_one] using h

/-- C4: for the orders whose creation timestamp falls in the queried
range, the analytics summary reports totalRevenue equal to the sum of
their stored totals, totalTransactions equal to their count, and
averageOrderValue equal to totalRevenue divided by totalTransactions,
with 0 when there are no transactions. -/
theorem analytics_summary_correct (catalog : List MenuItem)
    (store : List Order) (startDate endDate : ℕ) :
    (analyticsDaily catalog store startDate endDate).totalRevenue =
      ((fetchOrders store (startOfDay startDate) (endOfDay endDate)).map
        Order.total).sum ∧
    (analyticsDaily catalog store startDate endDate).totalTransactions =
      (fetchOrders store (startOfDay startDate) (endOfDay endDate)).length ∧
    (analyticsDaily catalog store startDate endDate).averageOrderValue =
      (if (analyticsDaily catalog store startDate endDate).totalTransactions = 0
        then 0
        else (analyticsDaily catalog store startDate endDate).totalRevenue /
          ((analyticsDaily catalog store startDate endDate).totalTransactions : ℚ)) := by
  refine ⟨?_, ?_, ?_⟩
  · simp only [analyticsDaily]
    exact finState_totalRevenue catalog _
  · simp only [analyticsDaily]
    exact finState_totalTransactions catalog _
  · simp only [analyticsDaily]
    rcases Nat.eq_zero_or_pos
        ((fetchOrders store (startOfDay startDate) (endOfDay endDate)).foldl
          (processOrder catalog) (⟨[], 0, 0, []⟩ : AnalyticsState)).totalTransactions
      with h | h
    · simp [h]
    · simp [h, Nat.pos_iff_ne_zero.mp h, Nat.not_eq_zero_of_lt h]

/-! Key-set and measure lemmas for the per-day accumulator. -/

lemma keys_dailySales_processItem (catalog : List MenuItem) (day : ℕ)
    (st : AnalyticsState) (oi : OrderItem)
    (h : day ∈ st.dailySales.map Prod.fst) :
    (processItem catalog day st oi).dailySales.map Prod.fst =
      st.dailySales.map Prod.fst := by
  unfold processItem
  cases menuLookup catalog oi.itemId with
  | none => rfl
  | some mi => exact keys_upsert_mem _ _ _ _ h

lemma keys_dailySales_foldl_processItem (catalog : List MenuItem) (day : ℕ)
    (items : List OrderItem) (st : AnalyticsState)
    (h : day ∈ st.dailySales.map Prod.fst) :
    ((items.foldl (processItem catalog day) st).dailySales).map Prod.fst =
      st.dailySales.map Prod.fst := by
  induction items generalizing st with
  | nil => rfl
  | cons oi rest ih =>
    have hk := keys_dailySales_processItem catalog day st oi h
    rw [List.foldl_cons, ih (processItem catalog day st oi) (by rw [hk]; exact h),
      hk]

lemma mem_keys_dailySales_processOrder (catalog : List MenuItem)
    (st : AnalyticsState) (o : Order) (a : ℕ) :
    a ∈ ((processOrder catalog st o).dailySales).map Prod.fst ↔
      a = epochDay o.createdAt ∨ a ∈ st.dailySales.map Prod.fst := by
  have hday : epochDay o.createdAt ∈
      (upsert st.dailySales (epochDay o.createdAt) (dayUpdate o) dayInit).map
        Prod.fst :=
    (mem_keys_upsert _ _ _ _ _).mpr (Or.inl rfl)
  simp only [processOrder]
  rw [keys_dailySales_foldl_processItem _ _ _ _ hday]
  exact mem_keys_upsert _ _ _ _ _

lemma nodup_keys_dailySales_processOrder (catalog : List MenuItem)
    (st : AnalyticsState) (o : Order)
    (h : (st.dailySales.map Prod.fst).Nodup) :
    (((processOrder catalog st o).dailySales).map Prod.fst).Nodup := by
  have hday : epochDay o.createdAt ∈
      (upsert st.dailySales (epochDay o.createdAt) (dayUpdate o) dayInit).map
        Prod.fst :=
    (mem_keys_upsert _ _ _ _ _).mpr (Or.inl rfl)
  simp only [processOrder]
  rw [keys_dailySales_foldl_processItem _ _ _ _ hday]
  exact nodup_keys_upsert _ _ _ _ h

lemma mem_keys_dailySales_finState (catalog : List MenuItem)
    (orders : List Order) (a : ℕ) :
    a ∈ ((orders.foldl (processOrder catalog)
        (⟨[], 0, 0, []⟩ : AnalyticsState)).dailySales).map Prod.fst ↔
      ∃ o ∈ orders, epochDay o.createdAt = a := by
  suffices hgen : ∀ st : AnalyticsState,
      a ∈ ((orders.foldl (processOrder catalog) st).dailySales).map Prod.fst ↔
        (∃ o ∈ orders, epochDay o.createdAt = a) ∨
          a ∈ st.dailySales.map Prod.fst by
    simpa using hgen ⟨[], 0, 0, []⟩
  induction orders with
  | nil => intro st; simp
  | cons o rest ih =>
    intro st
    rw [List.foldl_cons, ih (processOrder catalog st o),
      mem_keys_dailySales_processOrder]
    simp only [List.exists_mem_cons_iff]
    constructor
    · rintro (h | h | h)
      · exact Or.inl (Or.inr h)
      · exact Or.inl (Or.inl h.symm)
      · exact Or.inr h
    · rintro ((h | h) | h)
      · exact Or.inr (Or.inl h.symm)
      · exact Or.inl h
      · exact Or.inr (Or.inr h)

lemma nodup_keys_dailySales_finState (catalog : List MenuItem)
    (orders : List Order) :
    (((orders.foldl (processOrder catalog)
        (⟨[], 0, 0, []⟩ : AnalyticsState)).dailySales).map Prod.fst).Nodup := by
  suffices hgen : ∀ st : AnalyticsState, (st.dailySales.map Prod.fst).Nodup →
      (((orders.foldl (processOrder catalog) st).dailySales).map Prod.fst).Nodup by
    exact hgen ⟨[], 0, 0, []⟩ (by simp)
  induction orders with
  | nil => intro st h; exact h
  | cons o rest ih =>
    intro st h
    rw [List.foldl_cons]
    exact ih _ (nodup_keys_dailySales_processOrder catalog st o h)

section DayMeasure

variable {M : Type} [AddCommMonoid M]

lemma measureAt_dailySales_processItem (mu : DayStat → M)
    (hmu : ∀ (d : DayStat) (its : List (String × ItemStat)),
      mu { d with items := its } = mu d)
    (h0 : mu dayInit = 0) (catalog : List MenuItem) (day : ℕ)
    (st : AnalyticsState) (oi : OrderItem) (k : ℕ) :
    measureAt mu (processItem catalog day st oi).dailySales k =
      measureAt mu st.dailySales k := by
  unfold processItem
  cases menuLookup catalog oi.itemId with
  | none => rfl
  | some mi =>
    have h := measureAt_upsert mu st.dailySales day k
      (fun d => { d with
        items := upsert d.items oi.itemId
          (itemUpdate oi.quantity (mi.price * (oi.quantity : ℚ)))
          ⟨mi.name, 0, 0, mi.category⟩ }) dayInit 0
      (fun v => by rw [hmu, add_zero]) h0
    simpa using h

lemma measureAt_dailySales_foldl_processItem (mu : DayStat → M)
    (hmu : ∀ (d : DayStat) (its : List (String × ItemStat)),
      mu { d with items := its } = mu d)
    (h0 : mu dayInit = 0) (catalog : List MenuItem) (day : ℕ)
    (items : List OrderItem) (st : AnalyticsState) (k : ℕ) :
    measureAt mu ((items.foldl (processItem catalog day) st).dailySales) k =
      measureAt mu st.dailySales k := by
  have h := foldl_measure_add (processItem catalog day)
    (fun s => measureAt mu s.dailySales k) (fun _ => (0 : M))
    (fun s c => by
      show measureAt mu (processItem catalog day s c).dailySales k =
        measureAt mu s.dailySales k + (0 : M)
      rw [measureAt_dailySales_processItem mu hmu h0, add_zero]) items st
  simpa using h

lemma measureAt_dailySales_processOrder (mu : DayStat → M) (w : Order → M)
    (hmu : ∀ (d : DayStat) (its : List (String × ItemStat)),
      mu { d with items := its } = mu d)
    (h0 : mu dayInit = 0)
    (hupd : ∀ (o : Order) (d : DayStat), mu (dayUpdate o d) = mu d + w o)
    (catalog : List MenuItem) (st : AnalyticsState) (o : Order) (k : ℕ) :
    measureAt mu (processOrder catalog st o).dailySales k =
      measureAt mu st.dailySales k +
        if epochDay o.createdAt = k then w o else 0 := by
  simp only [processOrder]
  rw [measureAt_dailySales_foldl_processItem mu hmu h0]
  exact measureAt_upsert mu st.dailySales (epochDay o.createdAt) k
    (dayUpdate o) dayInit (w o) (hupd o) h0

lemma measureAt_dailySales_finState (mu : DayStat → M) (w : Order → M)
    (hmu : ∀ (d : DayStat) (its : List (String × ItemStat)),
      mu { d with items := its } = mu d)
    (h0 : mu dayInit = 0)
    (hupd : ∀ (o : Order) (d : DayStat), mu (dayUpdate o d) = mu d + w o)
    (catalog : List MenuItem) (orders : List Order) (k : ℕ) :
    measureAt mu ((orders.foldl (processOrder catalog)
        (⟨[], 0, 0, []⟩ : AnalyticsState)).dailySales) k =
      (orders.map (fun o => if epochDay o.createdAt = k then w o else 0)).sum := by
  have h := foldl_measure_add (processOrder catalog)
    (fun s => measureAt mu s.dailySales k)
    (fun o => if epochDay o.createdAt = k then w o else 0)
    (fun s o => measureAt_dailySales_processOrder mu w hmu h0 hupd catalog s o k)
    orders ⟨[], 0, 0, []⟩
  simpa [measureAt, alookup] using h

end DayMeasure

lemma measure_entry_dailySales {M : Type} [AddCommMonoid M]
    (mu : DayStat → M) (w : Order → M)
    (hmu : ∀ (d : DayStat) (its : List (String × ItemStat)),
      mu { d with items := its } = mu d)
    (h0 : mu dayInit = 0)
    (hupd : ∀ (o : Order) (d : DayStat), mu (dayUpdate o d) = mu d + w o)
    (catalog : List MenuItem) (orders : List Order) (x : ℕ × DayStat)
    (hx : x ∈ (orders.foldl (processOrder catalog)
      (⟨[], 0, 0, []⟩ : AnalyticsState)).dailySales) :
    mu x.2 =
      (orders.map (fun o => if epochDay o.createdAt = x.1 then w o else 0)).sum := by
  have hnd := nodup_keys_dailySales_finState catalog orders
  have halk := alookup_eq_of_mem _ x hnd hx
  have h := measureAt_dailySales_finState mu w hmu h0 hupd catalog orders x.1
  rw [measureAt, halk] at h
  simpa using h

lemma pairwise_dailySalesArray (ds : List (ℕ × DayStat)) :
    (dailySalesArray ds).Pairwise (fun a b => b.1 ≤ a.1) := by
  have htr : ∀ a b c : ℕ × DayStat, decide (b.1 ≤ a.1) = true →
      decide (c.1 ≤ b.1) = true → decide (c.1 ≤ a.1) = true := by
    intro a b c hab hbc
    exact decide_eq_true (le_trans (of_decide_eq_true hbc) (of_decide_eq_true hab))
  have hto : ∀ a b : ℕ × DayStat,
      (decide (b.1 ≤ a.1) || decide (a.1 ≤ b.1)) = true := by
    intro a b
    rcases Nat.le_total b.1 a.1 with h | h
    · simp [h]
    · simp [h]
  exact (List.sorted_mergeSort htr hto ds).imp (fun hab => of_decide_eq_true hab)

lemma ite_nest_one {p q : Prop} [Decidable p] [Decidable q] :
    (if p then (if q then (1 : ℕ) else 0) else 0) =
      if p ∧ q then (1 : ℕ) else 0 := by
  by_cases hp : p
  · by_cases hq : q
    · simp [hp, hq]
    · simp [hp, hq]
  · simp [hp]

/-- C6: dailySales has exactly one entry per calendar day (server/UTC day
boundary of the creation timestamp) with at least one in-range order; each
entry carries that day's transaction count, revenue (sum of stored order
totals) and per-payment-method counts over cash, debit and ewallet; the
array is sorted descending by date and totalDays is its length. -/
theorem analytics_dailySales_correct (catalog : List MenuItem)
    (store : List Order) (startDate endDate : ℕ) :
    (((analyticsDaily catalog store startDate endDate).dailySales.map
      Prod.fst).Nodup ∧
    (∀ d : ℕ,
      (∃ x ∈ (analyticsDaily catalog store startDate endDate).dailySales,
        x.1 = d) ↔
      ∃ o ∈ fetchOrders store (startOfDay startDate) (endOfDay endDate),
        epochDay o.createdAt = d)) ∧
    (∀ x ∈ (analyticsDaily catalog store startDate endDate).dailySales,
      x.2.transactions =
        ((fetchOrders store (startOfDay startDate) (endOfDay endDate)).filter
          (fun o => decide (epochDay o.createdAt = x.1))).length ∧
      x.2.revenue =
        (((fetchOrders store (startOfDay startDate) (endOfDay endDate)).filter
          (fun o => decide (epochDay o.createdAt = x.1))).map Order.total).sum ∧
      x.2.cash =
        ((fetchOrders store (startOfDay startDate) (endOfDay endDate)).filter
          (fun o => decide (epochDay o.createdAt = x.1 ∧
            o.paymentMethod = PaymentMethod.cash))).length ∧
      x.2.debit =
        ((fetchOrders store (startOfDay startDate) (endOfDay endDate)).filter
          (fun o => decide (epochDay o.createdAt = x.1 ∧
            o.paymentMethod = PaymentMethod.debit))).length ∧
      x.2.ewallet =
        ((fetchOrders store (startOfDay startDate) (endOfDay endDate)).filter
          (fun o => decide (epochDay o.createdAt = x.1 ∧
            o.paymentMethod = PaymentMethod.ewallet))).length) ∧
    (analyticsDaily catalog store startDate endDate).dailySales.Pairwise
      (fun a b => b.1 ≤ a.1) ∧
    (analyticsDaily catalog store startDate endDate).totalDays =
      (analyticsDaily catalog store startDate endDate).dailySales.length := by
  have hds : (analyticsDaily catalog store startDate endDate).dailySales =
      dailySalesArray ((fetchOrders store (startOfDay startDate)
        (endOfDay endDate)).foldl (processOrder catalog)
        (⟨[], 0, 0, []⟩ : AnalyticsState)).dailySales := rfl
  set F := fetchOrders store (startOfDay startDate) (endOfDay endDate) with hF
  set fin := F.foldl (processOrder catalog) (⟨[], 0, 0, []⟩ : AnalyticsState)
    with hfin
  have hnd := nodup_keys_dailySales_finState catalog F
  have hperm : (dailySalesArray fin.dailySales).Perm fin.dailySales :=
    List.mergeSort_perm _ _
  refine ⟨⟨?_, ?_⟩, ?_, ?_, ?_⟩
  · rw [hds]
    exact (hperm.map Prod.fst).nodup_iff.mpr hnd
  · intro d
    rw [hds]
    have h1 : (∃ x ∈ dailySalesArray fin.dailySales, x.1 = d) ↔
        ∃ x ∈ fin.dailySales, x.1 = d := by
      constructor
      · rintro ⟨x, hx, e⟩
        exact ⟨x, hperm.subset hx, e⟩
      · rintro ⟨x, hx, e⟩
        exact ⟨x, hperm.symm.subset hx, e⟩
    rw [h1, ← List.mem_map, mem_keys_dailySales_finState]
  · intro x hx
    rw [hds] at hx
    have hxfin : x ∈ fin.dailySales := hperm.subset hx
    refine ⟨?_, ?_, ?_, ?_, ?_⟩
    · have h := measure_entry_dailySales (fun d => d.transactions)
        (fun _ => (1 : ℕ)) (fun d its => rfl) rfl
        (fun o d => by cases h : o.paymentMethod <;> simp [dayUpdate, bumpPM, h])
        catalog F x hxfin
      exact h.trans (sum_map_ite_one F (fun o => epochDay o.createdAt = x.1))
    · have h := measure_entry_dailySales (fun d => d.revenue) Order.total
        (fun d its => rfl) rfl
        (fun o d => by cases h : o.paymentMethod <;> simp [dayUpdate, bumpPM, h])
        catalog F x hxfin
      exact h.trans
        (sum_map_ite F (fun o => epochDay o.createdAt = x.1) Order.total)
    · have h := measure_entry_dailySales (fun d => d.cash)
        (fun o => if o.paymentMethod = PaymentMethod.cash then (1 : ℕ) else 0)
        (fun d its => rfl) rfl
        (fun o d => by cases h : o.paymentMethod <;> simp [dayUpdate, bumpPM, h])
        catalog F x hxfin
      refine h.trans ?_
      show (F.map (fun o => if epochDay o.createdAt = x.1 then
        (if o.paymentMethod = PaymentMethod.cash then (1 : ℕ) else 0)
        else 0)).sum = _
      rw [List.map_congr_left (fun o _ => ite_nest_one), sum_map_ite_one]
    · have h := measure_entry_dailySales (fun d => d.debit)
        (fun o => if o.paymentMethod = PaymentMethod.debit then (1 : ℕ) else 0)
        (fun d its => rfl) rfl
        (fun o d => by cases h : o.paymentMethod <;> simp [dayUpdate, bumpPM, h])
        catalog F x hxfin
      refine h.trans ?_
      show (F.map (fun o => if epochDay o.createdAt = x.1 then
        (if o.paymentMethod = PaymentMethod.debit then (1 : ℕ) else 0)
        else 0)).sum = _
      rw [List.map_congr_left (fun o _ => ite_nest_one), sum_map_ite_one]
    · have h := measure_entry_dailySales (fun d => d.ewallet)
        (fun o => if o.paymentMethod = PaymentMethod.ewallet then (1 : ℕ) else 0)
        (fun d its => rfl) rfl
        (fun o d => by cases h : o.paymentMethod <;> simp [dayUpdate, bumpPM, h])
        catalog F x hxfin
      refine h.trans ?_
      show (F.map (fun o => if epochDay o.createdAt = x.1 then
        (if o.paymentMethod = PaymentMethod.ewallet then (1 : ℕ) else 0)
        else 0)).sum = _
      rw [List.map_congr_left (fun o _ => ite_nest_one), sum_map_ite_one]
  · rw [hds]
    exact pairwise_dailySalesArray _
  · rfl

/-! Key-set and measure lemmas for the global item rollup. -/

lemma mem_keys_itemSales_processItem (catalog : List MenuItem) (day : ℕ)
    (st : AnalyticsState) (oi : OrderItem) (a : String) :
    a ∈ ((processItem catalog day st oi).itemSales).map Prod.fst ↔
      (oi.itemId = a ∧ (menuLookup catalog oi.itemId).isSome = true) ∨
        a ∈ st.itemSales.map Prod.fst := by
  cases hl : menuLookup catalog oi.itemId with
  | none => simp [processItem, hl]
  | some mi =>
    simp only [processItem, hl]
    rw [mem_keys_upsert]
    simp [eq_comm]

lemma mem_keys_itemSales_foldl (catalog : List MenuItem) (day : ℕ)
    (items : List OrderItem) (st : AnalyticsState) (a : String) :
    a ∈ (((items.foldl (processItem catalog day) st)).itemSales).map Prod.fst ↔
      (∃ oi ∈ items, oi.itemId = a ∧ (menuLookup catalog oi.itemId).isSome = true) ∨
        a ∈ st.itemSales.map Prod.fst := by
  induction items generalizing st with
  | nil => simp
  | cons oi rest ih =>
    rw [List.foldl_cons, ih, mem_keys_itemSales_processItem]
    simp only [List.exists_mem_cons_iff]
    constructor
    · rintro (h | h | h)
      · exact Or.inl (Or.inr h)
      · exact Or.inl (Or.inl h)
      · exact Or.inr h
    · rintro ((h | h) | h)
      · exact Or.inr (Or.inl h)
      · exact Or.inl h
      · exact Or.inr (Or.inr h)

lemma mem_keys_itemSales_processOrder (catalog : List MenuItem)
    (st : AnalyticsState) (o : Order) (a : String) :
    a ∈ ((processOrder catalog st o).itemSales).map Prod.fst ↔
      (∃ oi ∈ o.items, oi.itemId = a ∧ (menuLookup catalog oi.itemId).isSome = true) ∨
        a ∈ st.itemSales.map Prod.fst := by
  simp only [processOrder]
  rw [mem_keys_itemSales_foldl]

lemma mem_keys_itemSales_finState (catalog : List MenuItem)
    (orders : List Order) (a : String) :
    a ∈ ((orders.foldl (processOrder catalog)
        (⟨[], 0, 0, []⟩ : AnalyticsState)).itemSales).map Prod.fst ↔
      ∃ o ∈ orders, ∃ oi ∈ o.items,
        oi.itemId = a ∧ (menuLookup catalog oi.itemId).isSome = true := by
  suffices hgen : ∀ st : AnalyticsState,
      a ∈ ((orders.foldl (processOrder catalog) st).itemSales).map Prod.fst ↔
        (∃ o ∈ orders, ∃ oi ∈ o.items,
          oi.itemId = a ∧ (menuLookup catalog oi.itemId).isSome = true) ∨
          a ∈ st.itemSales.map Prod.fst by
    simpa using hgen ⟨[], 0, 0, []⟩
  induction orders with
  | nil => intro st; simp
  | cons o rest ih =>
    intro st
    rw [List.foldl_cons, ih (processOrder catalog st o),
      mem_keys_itemSales_processOrder]
    simp only [List.exists_mem_cons_iff]
    constructor
    · rintro (h | h | h)
      · exact Or.inl (Or.inr h)
      · exact Or.inl (Or.inl h)
      · exact Or.inr h
    · rintro ((h | h) | h)
      · exact Or.inr (Or.inl h)
      · exact Or.inl h
      · exact Or.inr (Or.inr h)

lemma nodup_keys_itemSales_processItem (catalog : List MenuItem) (day : ℕ)
    (st : AnalyticsState) (oi : OrderItem)
    (h : (st.itemSales.map Prod.fst).Nodup) :
    (((processItem catalog day st oi).itemSales).map Prod.fst).Nodup := by
  cases hl : menuLookup catalog oi.itemId with
  | none => simpa [processItem, hl] using h
  | some mi =>
    simp only [processItem, hl]
    exact nodup_keys_upsert _ _ _ _ h

lemma nodup_keys_itemSales_foldl (catalog : List MenuItem) (day : ℕ)
    (items : List OrderItem) (st : AnalyticsState)
    (h : (st.itemSales.map Prod.fst).Nodup) :
    ((((items.foldl (processItem catalog day) st)).itemSales).map Prod.fst).Nodup := by
  induction items generalizing st with
  | nil => exact h
  | cons oi rest ih =>
    rw [List.foldl_cons]
    exact ih _ (nodup_keys_itemSales_processItem catalog day st oi h)

lemma nodup_keys_itemSales_finState (catalog : List MenuItem)
    (orders : List Order) :
    (((orders.foldl (processOrder catalog)
        (⟨[], 0, 0, []⟩ : AnalyticsState)).itemSales).map Prod.fst).Nodup := by
  suffices hgen : ∀ st : AnalyticsState, (st.itemSales.map Prod.fst).Nodup →
      (((orders.foldl (processOrder catalog) st).itemSales).map Prod.fst).Nodup by
    exact hgen ⟨[], 0, 0, []⟩ (by simp)
  induction orders with
  | nil => intro st h; exact h
  | cons o rest ih =>
    intro st h
    rw [List.foldl_cons]
    apply ih
    simp only [processOrder]
    exact nodup_keys_itemSales_foldl catalog _ _ _ h

section ItemMeasure

variable {M : Type} [AddCommMonoid M]

lemma measureAt_itemSales_processItem (mu : ItemStat → M) (wval : ℕ → ℚ → M)
    (hupd : ∀ (q : ℕ) (r : ℚ) (s : ItemStat),
      mu (itemUpdate q r s) = mu s + wval q r)
    (h0 : ∀ n c : String, mu ⟨n, 0, 0, c⟩ = 0)
    (catalog : List MenuItem) (day : ℕ) (st : AnalyticsState)
    (oi : OrderItem) (k : String) :
    measureAt mu (processItem catalog day st oi).itemSales k =
      measureAt mu st.itemSales k +
        (match menuLookup catalog oi.itemId with
         | some mi =>
            if oi.itemId = k then wval oi.quantity (mi.price * (oi.quantity : ℚ))
            else 0
         | none => 0) := by
  cases hl : menuLookup catalog oi.itemId with
  | none => simp [processItem, hl]
  | some mi =>
    simp only [processItem, hl]
    exact measureAt_upsert mu st.itemSales oi.itemId k
      (itemUpdate oi.quantity (mi.price * (oi.quantity : ℚ)))
      ⟨mi.name, 0, 0, mi.category⟩
      (wval oi.quantity (mi.price * (oi.quantity : ℚ))) (hupd _ _) (h0 _ _)

end ItemMeasure

lemma qty_itemSales_processItem (catalog : List MenuItem) (day : ℕ)
    (st : AnalyticsState) (oi : OrderItem) (k : String) :
    measureAt (fun s => s.quantity) (processItem catalog day st oi).itemSales k =
      measureAt (fun s => s.quantity) st.itemSales k +
        itemContribQty catalog k oi := by
  have h := measureAt_itemSales_processItem (fun s => s.quantity)
    (fun q _ => q) (fun q r s => rfl) (fun n c => rfl) catalog day st oi k
  rw [h]
  unfold itemContribQty
  cases menuLookup catalog oi.itemId <;> rfl

lemma rev_itemSales_processItem (catalog : List MenuItem) (day : ℕ)
    (st : AnalyticsState) (oi : OrderItem) (k : String) :
    measureAt (fun s => s.revenue) (processItem catalog day st oi).itemSales k =
      measureAt (fun s => s.revenue) st.itemSales k +
        itemContribRev catalog k oi := by
  have h := measureAt_itemSales_processItem (fun s => s.revenue)
    (fun _ r => r) (fun q r s => rfl) (fun n c => rfl) catalog day st oi k
  rw [h]
  unfold itemContribRev
  cases menuLookup catalog oi.itemId <;> rfl

lemma qty_itemSales_processOrder (catalog : List MenuItem)
    (st : AnalyticsState) (o : Order) (k : String) :
    measureAt (fun s => s.quantity) (processOrder catalog st o).itemSales k =
      measureAt (fun s => s.quantity) st.itemSales k +
        (o.items.map (itemContribQty catalog k)).sum := by
  simp only [processOrder]
  have h := foldl_measure_add (processItem catalog (epochDay o.createdAt))
    (fun s => measureAt (fun t => t.quantity) s.itemSales k)
    (itemContribQty catalog k)
    (fun s c => qty_itemSales_processItem catalog _ s c k) o.items
    { st with
      dailySales := upsert st.dailySales (epochDay o.createdAt)
        (dayUpdate o) dayInit
      totalRevenue := st.totalRevenue + o.total
      totalTransactions := st.totalTransactions + 1 }
  exact h

lemma rev_itemSales_processOrder (catalog : List MenuItem)
    (st : AnalyticsState) (o : Order) (k : String) :
    measureAt (fun s => s.revenue) (processOrder catalog st o).itemSales k =
      measureAt (fun s => s.revenue) st.itemSales k +
        (o.items.map (itemContribRev catalog k)).sum := by
  simp only [processOrder]
  have h := foldl_measure_add (processItem catalog (epochDay o.createdAt))
    (fun s => measureAt (fun t => t.revenue) s.itemSales k)
    (itemContribRev catalog k)
    (fun s c => rev_itemSales_processItem catalog _ s c k) o.items
    { st with
      dailySales := upsert st.dailySales (epochDay o.createdAt)
        (dayUpdate o) dayInit
      totalRevenue := st.totalRevenue + o.total
      totalTransactions := st.totalTransactions + 1 }
  exact h

lemma qty_itemSales_finState (catalog : List MenuItem) (orders : List Order)
    (k : String) :
    measureAt (fun s => s.quantity) ((orders.foldl (processOrder catalog)
        (⟨[], 0, 0, []⟩ : AnalyticsState)).itemSales) k =
      (orders.map (fun o => (o.items.map (itemContribQty catalog k)).sum)).sum := by
  have h := foldl_measure_add (processOrder catalog)
    (fun s => measureAt (fun t => t.quantity) s.itemSales k)
    (fun o => (o.items.map (itemContribQty catalog k)).sum)
    (fun s o => qty_itemSales_processOrder catalog s o k) orders ⟨[], 0, 0, []⟩
  simpa [measureAt, alookup] using h

lemma rev_itemSales_finState (catalog : List MenuItem) (orders : List Order)
    (k : String) :
    measureAt (fun s => s.revenue) ((orders.foldl (processOrder catalog)
        (⟨[], 0, 0, []⟩ : AnalyticsState)).itemSales) k =
      (orders.map (fun o => (o.items.map (itemContribRev catalog k)).sum)).sum := by
  have h := foldl_measure_add (processOrder catalog)
    (fun s => measureAt (fun t => t.revenue) s.itemSales k)
    (fun o => (o.items.map (itemContribRev catalog k)).sum)
    (fun s o => rev_itemSales_processOrder catalog s o k) orders ⟨[], 0, 0, []⟩
  simpa [measureAt, alookup] using h

lemma sum_flatMap {γ δ M : Type} [AddCommMonoid M] (l : List γ)
    (g : γ → List δ) (f : δ → M) :
    ((l.flatMap g).map f).sum = (l.map (fun x => ((g x).map f).sum)).sum := by
  induction l with
  | nil => simp
  | cons x rest ih => simp [List.flatMap_cons, ih]

lemma itemContribQty_of_resolved (catalog : List MenuItem) (k : String)
    (hres : (menuLookup catalog k).isSome = true) (oi : OrderItem) :
    itemContribQty catalog k oi = if oi.itemId = k then oi.quantity else 0 := by
  unfold itemContribQty
  by_cases e : oi.itemId = k
  · subst e
    cases hl : menuLookup catalog oi.itemId with
    | none => rw [hl] at hres; simp at hres
    | some mi => simp [hl]
  · cases hl : menuLookup catalog oi.itemId <;> simp [hl, e]

lemma itemContribRev_of_resolved (catalog : List MenuItem) (k : String)
    (mi : MenuItem) (hres : menuLookup catalog k = some mi) (oi : OrderItem) :
    itemContribRev catalog k oi =
      if oi.itemId = k then mi.price * (oi.quantity : ℚ) else 0 := by
  unfold itemContribRev
  by_cases e : oi.itemId = k
  · subst e
    simp [hres]
  · cases hl : menuLookup catalog oi.itemId <;> simp [hl, e]

lemma sum_contribQty (catalog : List MenuItem) (k : String) (F : List Order)
    (hres : (menuLookup catalog k).isSome = true) :
    (F.map (fun o => (o.items.map (itemContribQty catalog k)).sum)).sum =
      (((F.flatMap (fun o => o.items)).filter
        (fun oi => decide (oi.itemId = k))).map (fun oi => oi.quantity)).sum := by
  rw [List.filter_flatMap, sum_flatMap]
  apply congrArg List.sum
  apply List.map_congr_left
  intro o _
  rw [← sum_map_ite o.items (fun oi => oi.itemId = k) (fun oi => oi.quantity)]
  apply congrArg List.sum
  apply List.map_congr_left
  intro oi _
  exact itemContribQty_of_resolved catalog k hres oi

lemma sum_contribRev (catalog : List MenuItem) (k : String) (mi : MenuItem)
    (F : List Order) (hres : menuLookup catalog k = some mi) :
    (F.map (fun o => (o.items.map (itemContribRev catalog k)).sum)).sum =
      (((F.flatMap (fun o => o.items)).filter
        (fun oi => decide (oi.itemId = k))).map
        (fun oi => mi.price * (oi.quantity : ℚ))).sum := by
  rw [List.filter_flatMap, sum_flatMap]
  apply congrArg List.sum
  apply List.map_congr_left
  intro o _
  rw [← sum_map_ite o.items (fun oi => oi.itemId = k)
    (fun oi => mi.price * (oi.quantity : ℚ))]
  apply congrArg List.sum
  apply List.map_congr_left
  intro oi _
  exact itemContribRev_of_resolved catalog k mi hres oi

lemma pairwise_topItemsOf (m : List (String × ItemStat)) :
    (topItemsOf m).Pairwise (fun a b => b.2.quantity ≤ a.2.quantity) := by
  apply List.Pairwise.sublist (List.take_sublist _ _)
  have htr : ∀ a b c : String × ItemStat, decide (b.2.quantity ≤ a.2.quantity) = true →
      decide (c.2.quantity ≤ b.2.quantity) = true →
      decide (c.2.quantity ≤ a.2.quantity) = true := by
    intro a b c hab hbc
    exact decide_eq_true (le_trans (of_decide_eq_true hbc) (of_decide_eq_true hab))
  have hto : ∀ a b : String × ItemStat,
      (decide (b.2.quantity ≤ a.2.quantity) ||
        decide (a.2.quantity ≤ b.2.quantity)) = true := by
    intro a b
    rcases Nat.le_total b.2.quantity a.2.quantity with h | h
    · simp [h]
    · simp [h]
  exact (List.sorted_mergeSort htr hto m).imp (fun hab => of_decide_eq_true hab)

/-- C5: topItems has at most 10 entries, is sorted descending by quantity,
and each entry aggregates across all in-range orders the quantities of the
line items with its item id and their revenue at the current catalog
price. -/
theorem analytics_topItems_correct (catalog : List MenuItem)
    (store : List Order) (startDate endDate : ℕ) :
    (analyticsDaily catalog store startDate endDate).topItems.length ≤ 10 ∧
    (analyticsDaily catalog store startDate endDate).topItems.Pairwise
      (fun a b => b.2.quantity ≤ a.2.quantity) ∧
    (∀ x ∈ (analyticsDaily catalog store startDate endDate).topItems,
      ∃ mi, menuLookup catalog x.1 = some mi ∧
        x.2.quantity =
          ((((fetchOrders store (startOfDay startDate) (endOfDay endDate)).flatMap
            (fun o => o.items)).filter (fun oi => decide (oi.itemId = x.1))).map
            (fun oi => oi.quantity)).sum ∧
        x.2.revenue =
          ((((fetchOrders store (startOfDay startDate) (endOfDay endDate)).flatMap
            (fun o => o.items)).filter (fun oi => decide (oi.itemId = x.1))).map
            (fun oi => mi.price * (oi.quantity : ℚ))).sum) := by
  have htop : (analyticsDaily catalog store startDate endDate).topItems =
      topItemsOf ((fetchOrders store (startOfDay startDate)
        (endOfDay endDate)).foldl (processOrder catalog)
        (⟨[], 0, 0, []⟩ : AnalyticsState)).itemSales := rfl
  set F := fetchOrders store (startOfDay startDate) (endOfDay endDate) with hF
  set fin := F.foldl (processOrder catalog) (⟨[], 0, 0, []⟩ : AnalyticsState)
    with hfin
  refine ⟨?_, ?_, ?_⟩
  · rw [htop]
    exact List.length_take_le _ _
  · rw [htop]
    exact pairwise_topItemsOf _
  · intro x hx
    rw [htop] at hx
    have hmem : x ∈ fin.itemSales :=
      (List.mergeSort_perm fin.itemSales _).subset (List.mem_of_mem_take hx)
    have hnd := nodup_keys_itemSales_finState catalog F
    have hkey : x.1 ∈ fin.itemSales.map Prod.fst :=
      List.mem_map_of_mem Prod.fst hmem
    obtain ⟨o, _, oi, _, he, hsome⟩ :=
      (mem_keys_itemSales_finState catalog F x.1).mp hkey
    rw [he] at hsome
    obtain ⟨mi, hmi⟩ := Option.isSome_iff_exists.mp hsome
    have halk := alookup_eq_of_mem _ x hnd hmem
    refine ⟨mi, hmi, ?_, ?_⟩
    · have h := qty_itemSales_finState catalog F x.1
      rw [measureAt, halk] at h
      simp only [Option.map_some', Option.getD_some] at h
      exact h.trans (sum_contribQty catalog x.1 F hsome)
    · have h := rev_itemSales_finState catalog F x.1
      rw [measureAt, halk] at h
      simp only [Option.map_some', Option.getD_some] at h
      exact h.trans (sum_contribRev catalog x.1 mi F hmi)

/-! Theorems about unresolvable line items, order status, and categories. -/

lemma foldl_processItem_dropped (catalog : List MenuItem) (day : ℕ) (x : String)
    (hmiss : menuLookup catalog x = none) :
    ∀ (items : List OrderItem) (st : AnalyticsState),
      (items.filter (fun oi => !(oi.itemId == x))).foldl
        (processItem catalog day) st = items.foldl (processItem catalog day) st := by
  intro items
  induction items with
  | nil => intro st; rfl
  | cons oi rest ih =>
    intro st
    by_cases he : oi.itemId = x
    · have hskip : processItem catalog day st oi = st := by
        unfold processItem
        rw [he, hmiss]
      simp [List.filter_cons, he, hskip, ih]
    · have hbeq : (oi.itemId == x) = false := beq_eq_false_iff_ne.mpr he
      simp [List.filter_cons, hbeq, ih]

lemma processOrder_dropItem (catalog : List MenuItem) (x : String)
    (hmiss : menuLookup catalog x = none) (st : AnalyticsState) (o : Order) :
    processOrder catalog st (dropItem x o) = processOrder catalog st o :=
  foldl_processItem_dropped catalog (epochDay o.createdAt) x hmiss o.items
    { st with
      dailySales := upsert st.dailySales (epochDay o.createdAt)
        (dayUpdate o) dayInit
      totalRevenue := st.totalRevenue + o.total
      totalTransactions := st.totalTransactions + 1 }

/-- C7: a line item whose id does not resolve against the catalog map
contributes nothing to the analytics: removing every such line item from
the stored orders leaves the whole analytics payload unchanged, and in
particular the containing orders still count toward daily and summary
revenue with their stored totals.  The aggregation is a total function, so
the unresolvable item never makes it fail. -/
theorem analytics_skips_unresolvable (catalog : List MenuItem)
    (store : List Order) (startDate endDate : ℕ) (x : String)
    (hmiss : menuLookup catalog x = none) :
    analyticsDaily catalog (store.map (dropItem x)) startDate endDate =
      analyticsDaily catalog store startDate endDate := by
  have hfetch : fetchOrders (store.map (dropItem x)) (startOfDay startDate)
      (endOfDay endDate) =
      (fetchOrders store (startOfDay startDate) (endOfDay endDate)).map
        (dropItem x) := by
    unfold fetchOrders
    rw [List.filter_map]
    rfl
  have hfun : (fun (s : AnalyticsState) (o : Order) =>
      processOrder catalog s (dropItem x o)) = processOrder catalog := by
    funext s o
    exact processOrder_dropItem catalog x hmiss s o
  have hfin : (fetchOrders (store.map (dropItem x)) (startOfDay startDate)
        (endOfDay endDate)).foldl (processOrder catalog)
        (⟨[], 0, 0, []⟩ : AnalyticsState) =
      (fetchOrders store (startOfDay startDate) (endOfDay endDate)).foldl
        (processOrder catalog) (⟨[], 0, 0, []⟩ : AnalyticsState) := by
    rw [hfetch, List.foldl_map, hfun]
  simp only [analyticsDaily]
  rw [hfin]

/-- C7 witness: with a one-item catalog, a stored order holding a line
item for the unresolvable id ghost produces the same analytics as the same
store with that line item removed. -/
theorem analytics_skips_unresolvable_witness :
    analyticsDaily [⟨"a1", "Latte", 45, "coffee"⟩]
        ([⟨"o1", [⟨"a1", 1⟩, ⟨"ghost", 2⟩], 45, .cash, .pending, 0⟩].map
          (dropItem "ghost")) 0 0 =
      analyticsDaily [⟨"a1", "Latte", 45, "coffee"⟩]
        [⟨"o1", [⟨"a1", 1⟩, ⟨"ghost", 2⟩], 45, .cash, .pending, 0⟩] 0 0 :=
  analytics_skips_unresolvable [⟨"a1", "Latte", 45, "coffee"⟩]
    [⟨"o1", [⟨"a1", 1⟩, ⟨"ghost", 2⟩], 45, .cash, .pending, 0⟩] 0 0 "ghost"
    (by rfl)

/-- C10: the analytics aggregation reads no order status: rewriting every
stored order to an arbitrary status (pending, completed or cancelled)
leaves the whole analytics payload unchanged, so cancelled and pending
in-range orders are counted in the summary, the per-day buckets and the
item rollups exactly as completed orders are. -/
theorem analytics_ignores_status (catalog : List MenuItem)
    (store : List Order) (startDate endDate : ℕ) (f : Order → OrderStatus) :
    analyticsDaily catalog
        (store.map (fun o => { o with status := f o })) startDate endDate =
      analyticsDaily catalog store startDate endDate := by
  have hfetch : fetchOrders (store.map (fun o => { o with status := f o }))
      (startOfDay startDate) (endOfDay endDate) =
      (fetchOrders store (startOfDay startDate) (endOfDay endDate)).map
        (fun o => { o with status := f o }) := by
    unfold fetchOrders
    rw [List.filter_map]
    rfl
  have hfun : (fun (s : AnalyticsState) (o : Order) =>
      processOrder catalog s { o with status := f o }) =
        processOrder catalog := by
    funext s o
    rfl
  have hfin : (fetchOrders (store.map (fun o => { o with status := f o }))
        (startOfDay startDate) (endOfDay endDate)).foldl (processOrder catalog)
        (⟨[], 0, 0, []⟩ : AnalyticsState) =
      (fetchOrders store (startOfDay startDate) (endOfDay endDate)).foldl
        (processOrder catalog) (⟨[], 0, 0, []⟩ : AnalyticsState) := by
    rw [hfetch, List.foldl_map, hfun]
  simp only [analyticsDaily]
  rw [hfin]

/-- C8 counterexample: an order whose status is already completed has its
status changed again by the status-update operation (here to cancelled),
refuting that completed orders never change status. -/
theorem statusUpdate_completed_counterexample :
    (⟨"o1", [⟨"a1", 1⟩], 5, .cash, .completed, 0⟩ : Order).status =
        OrderStatus.completed ∧
    updateOrderStatus [⟨"o1", [⟨"a1", 1⟩], 5, .cash, .completed, 0⟩] "o1"
        .cancelled =
      ([⟨"o1", [⟨"a1", 1⟩], 5, .cash, .cancelled, 0⟩], true) := by
  constructor
  · rfl
  · rfl

/-- C8 amended: the status-update operation sets the status of the
matching order to any requested value in the enum regardless of its
current status (completed and cancelled orders included, and pending is an
accepted target); when no order has the requested id it reports not-found
and the store is unchanged. -/
theorem updateOrderStatus_spec (store : List Order) (oid : String)
    (st : OrderStatus) :
    ((∃ o ∈ store, o.id = oid) →
      updateOrderStatus store oid st =
        (store.map (fun o => if o.id = oid then { o with status := st } else o),
          true)) ∧
    ((∀ o ∈ store, o.id ≠ oid) →
      updateOrderStatus store oid st = (store, false)) := by
  constructor
  · rintro ⟨o, ho, he⟩
    unfold updateOrderStatus
    rw [if_pos (List.any_eq_true.mpr ⟨o, ho, by simp [he]⟩)]
  · intro h
    unfold updateOrderStatus
    rw [if_neg]
    intro hc
    rcases List.any_eq_true.mp hc with ⟨o, ho, hbeq⟩
    exact h o ho (by simpa using hbeq)

/-- C8 amended witness: a completed order is reopened to pending by the
status-update operation. -/
theorem updateOrderStatus_spec_witness :
    updateOrderStatus [⟨"o1", [⟨"a1", 1⟩], 5, .cash, .completed, 0⟩] "o1"
        .pending =
      ([⟨"o1", [⟨"a1", 1⟩], 5, .cash, .pending, 0⟩], true) := by
  have h := (updateOrderStatus_spec
    [⟨"o1", [⟨"a1", 1⟩], 5, .cash, .completed, 0⟩] "o1" .pending).1
    ⟨⟨"o1", [⟨"a1", 1⟩], 5, .cash, .completed, 0⟩, List.mem_singleton.mpr rfl,
      rfl⟩
  exact h.trans (by rfl)

/-- C9: evaluation at the failing input: with the seeded category named
all present (under its database id) and no menu item referencing it, the
DELETE category handler removes it and reports success; only the client
store guard (which matches the literal id all) refuses, so a direct
delete-category request does delete the reserved category. -/
theorem deleteCategory_all_succeeds :
    deleteCategory [⟨"c1", "all"⟩] [] "c1" = ([], .deleted) ∧
    removeCategory [⟨"c1", "all"⟩] [] "all" = ([⟨"c1", "all"⟩], none) := by
  constructor
  · rfl
  · rfl

end CafePos
